import Mathlib

/-!
Verification of the per-conversation session controller of the discord-agent
repository against its natural-language specification.

The development shallowly embeds the two source files:

* `src/main.py` — the preempt variant: one module-level bot, an
  `active_streams` table from thread id to the running task, a new message for
  an active thread cancels the running task and starts a fresh one.
* `src/agent.py` — the queue variant (`DiscordAgent` class): `active_streams`
  maps a thread id to a FIFO backlog of pending message events; the running
  loop pops the backlog after each run settles.

Message records produced by the agent runtime are opaque to the controller, so
they are embedded as natural numbers.  The embedded store keys are the thread
ids themselves (the source packs them as 8-byte big-endian keys, an injective
encoding for snowflake ids, so nothing below depends on the byte form).
-/

namespace DiscordAgent

/-- Opaque message record of the agent runtime (model request / response). -/
abbrev Msg := Nat

/-! ## Attachment classifier (`src/agent.py` lines 11-30 and 57-72,
`src/main.py` lines 62-77 and 103-111) -/

/-- One gateway attachment descriptor.  `media_type` is optional in the
gateway API; `fetch` is the result of `await attachment.read()`:
`some bytes` on success, `none` when the download raises. -/
structure Attachment where
  filename : String
  media_type : Option String
  fetch : Option (List Nat)
deriving DecidableEq

/-- Allow-listed image MIME types, verbatim from the source. -/
def IMAGE_MEDIA_TYPES : List String :=
  ["image/avif", "image/bmp", "image/gif", "image/jpeg", "image/png",
   "image/svg+xml", "image/webp"]

/-- Allow-listed audio MIME types, verbatim from the source. -/
def AUDIO_MEDIA_TYPES : List String :=
  ["audio/aac", "audio/mpeg", "audio/wav", "audio/webm"]

/-- The inline allow-set used by the classification test:
`IMAGE_MEDIA_TYPES + AUDIO_MEDIA_TYPES + ["application/pdf"]`. -/
def allowedMediaTypes : List String :=
  IMAGE_MEDIA_TYPES ++ AUDIO_MEDIA_TYPES ++ ["application/pdf"]

/-- One element of the `user_message` list passed to the agent runtime. -/
inductive UserContent where
  | text : String → UserContent
  | binary : List Nat → String → UserContent
deriving DecidableEq

/-- The first `user_message` element:
`user.content if user.content else "[No text provided by user]"`
(Python truthiness: both a missing and an empty content string fall back). -/
def textContent : Option String → String
  | some s => if s = "" then "[No text provided by user]" else s
  | none => "[No text provided by user]"

/-- The attachment loop of `_parse_message`.  For each attachment whose
`media_type` is in the allow-set the bytes are fetched — the source has no
handler around `await attachment.read()`, so a failed fetch raises out of the
whole parse, embedded as `Except.error filename`.  Any other attachment has
its filename appended to `ignored_attachments`.  (`None` media types fail the
Python membership test and are ignored.) -/
def parseMessageLoop :
    List Attachment → List UserContent → List String →
    Except String (List UserContent × List String)
  | [], msgs, ign => Except.ok (msgs, ign)
  | a :: rest, msgs, ign =>
    match a.media_type with
    | some m =>
      if m ∈ allowedMediaTypes then
        match a.fetch with
        | some d => parseMessageLoop rest (msgs ++ [UserContent.binary d m]) ign
        | none => Except.error a.filename
      else
        parseMessageLoop rest msgs (ign ++ [a.filename])
    | none => parseMessageLoop rest msgs (ign ++ [a.filename])

/-- `_parse_message` (`src/agent.py` lines 57-72; the same loop appears inline
in `src/main.py` lines 99-111): returns the content list for the agent run and
the ignored-attachment names. -/
def _parse_message (content : Option String) (atts : List Attachment) :
    Except String (List UserContent × List String) :=
  parseMessageLoop atts [UserContent.text (textContent content)] []

/-- The classification test on one attachment, as a Boolean:
`attachment.media_type in IMAGE_MEDIA_TYPES + AUDIO_MEDIA_TYPES + ["application/pdf"]`. -/
def mediaOk (a : Attachment) : Bool :=
  match a.media_type with
  | some m => decide (m ∈ allowedMediaTypes)
  | none => false

/-- The inline contents the loop accumulates for a list of attachments. -/
def inlineParts : List Attachment → List UserContent
  | [] => []
  | a :: rest =>
    match a.media_type, a.fetch with
    | some m, some d =>
        (if m ∈ allowedMediaTypes then [UserContent.binary d m] else [])
          ++ inlineParts rest
    | _, _ => inlineParts rest

/-- The ignored filenames the loop accumulates for a list of attachments. -/
def ignoredNames : List Attachment → List String
  | [] => []
  | a :: rest => (if mediaOk a then [] else [a.filename]) ++ ignoredNames rest

theorem parseLoop_ok (atts : List Attachment)
    (hf : ∀ a ∈ atts, mediaOk a = true → a.fetch ≠ none) :
    ∀ msgs ign, parseMessageLoop atts msgs ign =
      Except.ok (msgs ++ inlineParts atts, ign ++ ignoredNames atts) := by
  induction atts with
  | nil => intro msgs ign; simp [parseMessageLoop, inlineParts, ignoredNames]
  | cons a rest ih =>
    intro msgs ign
    have hfr : ∀ a ∈ rest, mediaOk a = true → a.fetch ≠ none := by
      intro x hx; exact hf x (List.mem_cons_of_mem _ hx)
    cases hm : a.media_type with
    | none =>
      simp [parseMessageLoop, hm, ih hfr, inlineParts, ignoredNames, mediaOk]
    | some m =>
      by_cases hmem : m ∈ allowedMediaTypes
      · have hok : mediaOk a = true := by simp [mediaOk, hm, hmem]
        cases hd : a.fetch with
        | none => exact absurd hd (hf a (List.mem_cons_self a rest) hok)
        | some d =>
          simp [parseMessageLoop, hm, hmem, hd, ih hfr, inlineParts,
            ignoredNames, hok]
      · cases hd : a.fetch with
        | none =>
          simp [parseMessageLoop, hm, hmem, hd, ih hfr, inlineParts,
            ignoredNames, mediaOk]
        | some d =>
          simp [parseMessageLoop, hm, hmem, hd, ih hfr, inlineParts,
            ignoredNames, mediaOk]

theorem mem_inlineParts {a : Attachment} {atts : List Attachment}
    (ha : a ∈ atts) {m : String} {d : List Nat}
    (hm : a.media_type = some m) (hmem : m ∈ allowedMediaTypes)
    (hd : a.fetch = some d) : UserContent.binary d m ∈ inlineParts atts := by
  induction atts with
  | nil => cases ha
  | cons b rest ih =>
    rcases List.mem_cons.1 ha with h | h
    · subst h
      simp [inlineParts, hm, hd, hmem]
    · have := ih h
      unfold inlineParts
      cases b.media_type with
      | none => exact this
      | some m2 =>
        cases b.fetch with
        | none => exact this
        | some d2 => simp [this]

theorem mem_ignoredNames {a : Attachment} {atts : List Attachment}
    (ha : a ∈ atts) (hnot : mediaOk a = false) :
    a.filename ∈ ignoredNames atts := by
  induction atts with
  | nil => cases ha
  | cons b rest ih =>
    rcases List.mem_cons.1 ha with h | h
    · subst h; simp [ignoredNames, hnot]
    · unfold ignoredNames
      rcases hb : mediaOk b <;> simp [ih h]

theorem ignoredNames_ne_nil {atts : List Attachment}
    (h : ∃ a ∈ atts, mediaOk a = false) : ignoredNames atts ≠ [] := by
  obtain ⟨a, ha, hnot⟩ := h
  have := mem_ignoredNames ha hnot
  intro hnil
  rw [hnil] at this
  cases this

theorem parseLoop_err (atts : List Attachment)
    (h : ∃ a ∈ atts, mediaOk a = true ∧ a.fetch = none) :
    ∀ msgs ign, ∃ f, parseMessageLoop atts msgs ign = Except.error f := by
  induction atts with
  | nil => obtain ⟨a, ha, _⟩ := h; cases ha
  | cons b rest ih =>
    intro msgs ign
    obtain ⟨a, ha, hok, hnone⟩ := h
    rcases List.mem_cons.1 ha with hab | harest
    · subst hab
      rcases hm : a.media_type with _ | m
      · rw [mediaOk, hm] at hok; cases hok
      · have hmem : m ∈ allowedMediaTypes := by
          rw [mediaOk, hm] at hok; exact of_decide_eq_true hok
        exact ⟨a.filename, by simp [parseMessageLoop, hm, hmem, hnone]⟩
    · have ihr := ih ⟨a, harest, hok, hnone⟩
      rcases hm : b.media_type with _ | m
      · simpa [parseMessageLoop, hm] using ihr _ _
      · by_cases hmem : m ∈ allowedMediaTypes
        · cases hd : b.fetch with
          | none => exact ⟨b.filename, by simp [parseMessageLoop, hm, hmem, hd]⟩
          | some d => simpa [parseMessageLoop, hm, hmem, hd] using ihr _ _
        · simpa [parseMessageLoop, hm, hmem] using ihr _ _

/-! ## Python string helpers

`event.message.content.replace(mention, "").strip()` is embedded on the
character-list representation of strings (the builtin `String.replace` and
`String.trim` are defined by well-founded recursion and do not evaluate inside
the kernel).  `removeOccAux` deletes the non-overlapping occurrences of a
pattern left to right, exactly as the Python `str.replace(pat, "")`; the fuel
argument only drives the structural recursion and is always sufficient at the
call site. -/

def removeOccAux (pat : List Char) : Nat → List Char → List Char
  | _, [] => []
  | 0, l => l
  | fuel + 1, c :: cs =>
    if pat ≠ [] ∧ pat.isPrefixOf (c :: cs) then
      removeOccAux pat fuel ((c :: cs).drop pat.length)
    else
      c :: removeOccAux pat fuel cs

/-- Python `s.replace(pat, "")`. -/
def removeOccurrences (pat l : List Char) : List Char :=
  removeOccAux pat l.length l

/-- Python `s.strip()`: drop leading and trailing whitespace. -/
def stripChars (l : List Char) : List Char :=
  ((l.dropWhile Char.isWhitespace).reverse.dropWhile Char.isWhitespace).reverse

/-- The mention text of the bot user: the Python f-string `<@` + id + `>`. -/
def mentionText (mid : Nat) : List Char :=
  ("<@" ++ toString mid ++ ">").data

/-- `event.message.content.replace(f"<@{me.id}>", "").strip()`
(`src/agent.py` line 149, `src/main.py` line 157). -/
def stripMention (mid : Nat) (c : String) : String :=
  String.mk (stripChars (removeOccurrences (mentionText mid) c.data))

/-! ## Markdown splitter

Modelled from the spec: `md_splitter` is
`RecursiveCharacterTextSplitter.from_language(MARKDOWN, chunk_size=2000,
chunk_overlap=0)` from the external langchain library (`src/agent.py` lines
28-30, `src/main.py` lines 79-81), whose code is not part of this repository.
Following the words of the spec, it splits the text at markdown boundaries
into chunks of at most 2000 characters, with zero overlap, in original order:
the model cuts the text after every line break and hard-splits any single
oversized run at the 2000-character limit, so that the chunks concatenate back
to the input. -/

def chunkSize : Nat := 2000

/-- Cut a character list after every newline (a markdown boundary). -/
def splitSegs : List Char → List (List Char)
  | [] => []
  | c :: cs =>
    if c = '\n' then [c] :: splitSegs cs
    else
      match splitSegs cs with
      | [] => [[c]]
      | s :: ss => (c :: s) :: ss

/-- Hard-split one boundary-free run into pieces of at most `chunkSize`; the
fuel argument drives the structural recursion and the one unit per chunk
provided at the call site is always enough. -/
def hardChunksAux : Nat → List Char → List (List Char)
  | _, [] => []
  | 0, c :: cs => [c :: cs]
  | fuel + 1, c :: cs =>
    if (c :: cs).length ≤ chunkSize then [c :: cs]
    else (c :: cs).take chunkSize :: hardChunksAux fuel ((c :: cs).drop chunkSize)

/-- Hard-split one boundary-free run into pieces of at most `chunkSize`. -/
def hardChunks (l : List Char) : List (List Char) :=
  hardChunksAux l.length l

/-- The text splitter bound as `md_splitter` in both source files. -/
def md_splitter (s : String) : List String :=
  (((splitSegs s.data).map hardChunks).flatten).map String.mk

theorem splitSegs_join : ∀ l : List Char, (splitSegs l).flatten = l := by
  intro l
  induction l with
  | nil => rfl
  | cons c cs ih =>
    rw [splitSegs]
    by_cases h : c = '\n'
    · simp [h, ih]
    · cases hs : splitSegs cs with
      | nil =>
        rw [hs] at ih
        simp at ih
        simp [h, ih]
      | cons s ss =>
        rw [hs] at ih
        simp at ih
        simp [h, ← ih]

theorem hardChunksAux_join : ∀ (fuel : Nat) (l : List Char),
    (hardChunksAux fuel l).flatten = l := by
  intro fuel
  induction fuel with
  | zero =>
    intro l
    cases l with
    | nil => rfl
    | cons c cs => simp [hardChunksAux]
  | succ n ih =>
    intro l
    cases l with
    | nil => rfl
    | cons c cs =>
      rw [hardChunksAux]
      by_cases hle : (c :: cs).length ≤ chunkSize
      · rw [if_pos hle]; simp
      · rw [if_neg hle]; simp [ih]

theorem hardChunks_join (l : List Char) : (hardChunks l).flatten = l :=
  hardChunksAux_join l.length l

theorem hardChunksAux_length : ∀ (fuel : Nat) (l : List Char),
    l.length ≤ fuel + chunkSize → ∀ c ∈ hardChunksAux fuel l,
    c.length ≤ chunkSize := by
  intro fuel
  induction fuel with
  | zero =>
    intro l hl c hc
    cases l with
    | nil => cases hc
    | cons x xs =>
      simp only [hardChunksAux, List.mem_singleton] at hc
      subst hc
      simpa using hl
  | succ n ih =>
    intro l hl c hc
    cases l with
    | nil => cases hc
    | cons x xs =>
      rw [hardChunksAux] at hc
      by_cases hle : (x :: xs).length ≤ chunkSize
      · rw [if_pos hle] at hc
        simp only [List.mem_singleton] at hc
        subst hc
        exact hle
      · rw [if_neg hle] at hc
        rcases List.mem_cons.1 hc with h | h
        · simp [h, List.length_take]
        · refine ih _ ?_ c h
          have hcs : chunkSize = 2000 := rfl
          simp only [List.length_drop, List.length_cons]
          simp only [List.length_cons] at hl
          omega

theorem hardChunks_length (l : List Char) :
    ∀ c ∈ hardChunks l, c.length ≤ chunkSize :=
  hardChunksAux_length l.length l (by omega)

theorem md_splitter_length (s : String) :
    ∀ c ∈ md_splitter s, c.length ≤ chunkSize := by
  intro c hc
  simp only [md_splitter, List.mem_map] at hc
  obtain ⟨l, hl, rfl⟩ := hc
  simp only [List.mem_flatten, List.mem_map] at hl
  obtain ⟨ls, ⟨seg, _, rfl⟩, hmem⟩ := hl
  exact hardChunks_length seg l hmem

theorem md_splitter_join (s : String) :
    ((md_splitter s).map String.data).flatten = s.data := by
  have haux : ∀ segs : List (List Char),
      ((segs.map hardChunks).flatten).flatten = segs.flatten := by
    intro segs
    induction segs with
    | nil => rfl
    | cons seg rest ih =>
      simp only [List.map_cons, List.flatten_cons, List.flatten_append, ih,
        hardChunks_join]
  have hdata : ∀ ls : List (List Char), (ls.map String.mk).map String.data = ls := by
    intro ls
    induction ls with
    | nil => rfl
    | cons x xs ih => simp [ih]
  rw [md_splitter, hdata, haux, splitSegs_join]

/-! ## Ownership table and message routing
(`src/agent.py` lines 138-197, `src/main.py` lines 146-207) -/

/-- An inbound gateway message event, restricted to the fields the handler
reads. -/
structure MessageEvent where
  is_human : Bool
  author_id : Nat
  channel_id : Nat
  content : Option String
deriving DecidableEq

/-- The externally visible operations the handler performs, in program
order.  `readOwner` is the `txn.get` on the ownership namespace,
`writeOwner` the `txn.put`, `reaction` the construction-sign emoji added to
the rejected message, `send` a message posted to the thread,
`cancelGeneration` the preempt `task.cancel()` plus await, and
`startGeneration` the start of `respond_to_message` for the resolved thread. -/
inductive Action where
  | readOwner : Nat → Action
  | writeOwner : Nat → Nat → Action
  | createThread : String → Action
  | reaction : Action
  | send : Nat → String → Action
  | cancelGeneration : Nat → Action
  | startGeneration : Nat → Action
deriving DecidableEq

/-- What the handler decided for the inbound event. -/
inductive Decision where
  | ignored
  | rejected
  | queued
  | started
deriving DecidableEq

/-- `txn.put(id, user_raw, db=thread_user_kv)` with the default lmdb flags:
it overwrites any existing value for the key and returns `True`
(`src/main.py` lines 173-176, `src/agent.py` lines 164-167 contain exactly
this put, with no existence check before it). -/
def recordOwner (kv : Nat → Option Nat) (tid uid : Nat) :
    (Nat → Option Nat) × Bool :=
  (fun k => if k = tid then some uid else kv k, true)

/-- The channel whose messages open a new conversation thread. -/
def magicChannel : Nat := 1452524008233762818

/-- Routing outcome shared by both variants. -/
inductive RouteOut where
  | ignored
  | rejected
  | proceed : Nat → RouteOut
deriving DecidableEq

/-- The input filtering, thread resolution and ownership check shared
verbatim by `ping` (`src/main.py` lines 147-195) and
`message_create_handler` (`src/agent.py` lines 138-186): drop non-human
events, events when the bot user is unknown, events without text, and events
whose text is empty once the bot mention is removed; a message in
`magicChannel` creates a fresh thread and records its owner; any other
message must arrive in a known thread (`readOwner` finds a record), from the
recorded owner, with the thread present in the gateway cache — otherwise the
event is rejected with a reaction.  `freshTid` stands for the id the gateway
assigns to a newly created thread and `inCache` for the thread-cache lookup
result. -/
def route (me : Option Nat) (freshTid : Nat) (inCache : Bool)
    (ev : MessageEvent) (user_kv : Nat → Option Nat) :
    (Nat → Option Nat) × List Action × RouteOut :=
  if ev.is_human = false then (user_kv, [], RouteOut.ignored)
  else
    match me with
    | none => (user_kv, [], RouteOut.ignored)
    | some mid =>
      match ev.content with
      | none => (user_kv, [], RouteOut.ignored)
      | some c0 =>
        let c := stripMention mid c0
        if c = "" then (user_kv, [], RouteOut.ignored)
        else if ev.channel_id = magicChannel then
          let tname := if c.length < 100 then c else c.take 97 ++ "..."
          ((recordOwner user_kv freshTid ev.author_id).1,
           [Action.createThread tname, Action.writeOwner freshTid ev.author_id],
           RouteOut.proceed freshTid)
        else
          match user_kv ev.channel_id with
          | none =>
            (user_kv, [Action.readOwner ev.channel_id, Action.reaction],
             RouteOut.rejected)
          | some owner =>
            if owner = ev.author_id then
              if inCache then
                (user_kv, [Action.readOwner ev.channel_id],
                 RouteOut.proceed ev.channel_id)
              else
                (user_kv, [Action.readOwner ev.channel_id, Action.reaction],
                 RouteOut.rejected)
            else
              (user_kv, [Action.readOwner ev.channel_id, Action.reaction],
               RouteOut.rejected)

/-- The controller state of the queue variant: the two store namespaces and
`active_streams`, mapping a thread id to the FIFO backlog of pending events
of its in-flight session (`src/agent.py` lines 44-49). -/
structure HState where
  user_kv : Nat → Option Nat
  contents_kv : Nat → Option (List Msg)
  sessions : Nat → Option (List MessageEvent)

/-- `DiscordAgent.message_create_handler` (`src/agent.py` lines 138-197):
after routing, an event for a thread with a live session is appended to that
backlog and the caller is told it was queued; otherwise a session with an
empty backlog is created, the `starting...` status message is sent, and the
generation loop starts. -/
def message_create_handler (me : Option Nat) (freshTid : Nat) (inCache : Bool)
    (ev : MessageEvent) (s : HState) : HState × List Action × Decision :=
  match route me freshTid inCache ev s.user_kv with
  | (kv, acts, RouteOut.ignored) => ({ s with user_kv := kv }, acts, Decision.ignored)
  | (kv, acts, RouteOut.rejected) => ({ s with user_kv := kv }, acts, Decision.rejected)
  | (kv, acts, RouteOut.proceed tid) =>
    match s.sessions tid with
    | some backlog =>
      ({ s with user_kv := kv,
                sessions := fun k =>
                  if k = tid then some (backlog ++ [ev]) else s.sessions k },
       acts, Decision.queued)
    | none =>
      ({ s with user_kv := kv,
                sessions := fun k => if k = tid then some [] else s.sessions k },
       acts ++ [Action.send tid "starting...", Action.startGeneration tid],
       Decision.started)

/-- The controller state of the preempt variant: `active_streams` only
records which thread has a task registered (`src/main.py` line 87; entries
are never removed when a task finishes). -/
structure PState where
  user_kv : Nat → Option Nat
  contents_kv : Nat → Option (List Msg)
  active : Nat → Bool

/-- `ping` (`src/main.py` lines 146-207): after routing, a task already
registered for the thread is cancelled and awaited, then the `starting...`
message is sent and a fresh generation task is registered and started. -/
def ping (me : Option Nat) (freshTid : Nat) (inCache : Bool)
    (ev : MessageEvent) (s : PState) : PState × List Action × Decision :=
  match route me freshTid inCache ev s.user_kv with
  | (kv, acts, RouteOut.ignored) => ({ s with user_kv := kv }, acts, Decision.ignored)
  | (kv, acts, RouteOut.rejected) => ({ s with user_kv := kv }, acts, Decision.rejected)
  | (kv, acts, RouteOut.proceed tid) =>
    let cancelActs := if s.active tid then [Action.cancelGeneration tid] else []
    ({ s with user_kv := kv,
              active := fun k => if k = tid then true else s.active k },
     acts ++ cancelActs ++ [Action.send tid "starting...", Action.startGeneration tid],
     Decision.started)

/-! ## Generation, preempt variant
(`respond_to_message`, `src/main.py` lines 90-143) -/

/-- How one invocation of the agent runtime settles, together with the
message list `capture_run_messages` holds at that point (the prior history
plus the request built from the new turn plus any response captured before
settling).  `success` additionally carries the output text and the cost
figure of the terminal result. -/
inductive RunOutcome where
  | success : List Msg → String → String → RunOutcome
  | cancelled : List Msg → RunOutcome
  | failed : List Msg → RunOutcome
deriving DecidableEq

/-- Observable result of one `respond_to_message` call of the preempt
variant. -/
structure MainResult where
  /-- The history written to `thread_contents_kv` by the `finally` block. -/
  committed : List Msg
  /-- Chunks sent to the thread. -/
  sent : List String
  /-- Argument of `report.cancel(...)`, `none` when the reporter was never
  cancelled. -/
  reporterCancelArg : Option String
  /-- Whether the error print of the `except Exception` branch ran. -/
  printedError : Bool
deriving DecidableEq

/-- `respond_to_message` of `src/main.py` (lines 113-143), by settle path:
on success the output is split and sent and the reporter is cancelled with
the cost note; on cancellation the reporter is cancelled with
`[interrupted]`; on any other exception the handler only prints.  The
`finally` block always writes the captured messages to the store. -/
def main_respond_to_message : RunOutcome → MainResult
  | RunOutcome.success msgs out cost =>
    { committed := msgs
      sent := md_splitter out
      reporterCancelArg := some ("info: cost $" ++ cost)
      printedError := false }
  | RunOutcome.cancelled msgs =>
    { committed := msgs
      sent := []
      reporterCancelArg := some "[interrupted]"
      printedError := false }
  | RunOutcome.failed msgs =>
    { committed := msgs
      sent := []
      reporterCancelArg := none
      printedError := true }

/-- The preempt hand-over for one thread (`src/main.py` lines 197-207 plus
the `finally` block of the cancelled task): `ping` cancels the registered
task and awaits it, the task settles with `t1` and its `finally` commits;
the replacement generation then loads its history snapshot from the store
(lines 92-97).  Returns the store after the hand-over and the snapshot the
new generation starts from. -/
def preemptStep (store : Nat → Option (List Msg)) (tid : Nat)
    (t1 : RunOutcome) : (Nat → Option (List Msg)) × List Msg :=
  let store2 := fun k =>
    if k = tid then some (main_respond_to_message t1).committed else store k
  (store2, (store2 tid).getD [])

/-! ## Generation, queue variant
(`respond_to_message`, `src/agent.py` lines 74-134) -/

/-- How one `agent.run_stream_events` pass settles: a terminal
`AgentRunResultEvent` carrying `all_messages()` and the output text, a
stream that ends without a result event, or an exception raised
mid-stream. -/
inductive QOutcome where
  | result : List Msg → String → QOutcome
  | noResult : QOutcome
  | err : QOutcome
deriving DecidableEq

/-- Trace of the `while True` loop of the queue variant. -/
structure LoopOut where
  /-- Each processed turn paired with the history its run started from. -/
  starts : List (Nat × List Msg)
  /-- The in-memory `message_history` when the loop exits. -/
  finalHistory : List Msg
  /-- The turn whose run raised, if any. -/
  erroredTurn : Option Nat
  /-- Output chunks sent to the thread, in order. -/
  sent : List String
deriving DecidableEq

/-- The `while True` loop (`src/agent.py` lines 109-129): run the agent on
the current turn with the in-memory `message_history`; on a terminal result
adopt `all_messages()` and send the split output; an exception leaves the
loop (to the `finally`); otherwise pop the backlog head and continue, or
leave when the backlog is empty.  `gen` gives the settle of the run started
from a given history on a given turn. -/
def queueLoop (gen : List Msg → Nat → QOutcome) :
    List Msg → Nat → List Nat → LoopOut
  | h, t, [] =>
    match gen h t with
    | QOutcome.err =>
      { starts := [(t, h)], finalHistory := h, erroredTurn := some t, sent := [] }
    | QOutcome.result m out =>
      { starts := [(t, h)], finalHistory := m, erroredTurn := none,
        sent := md_splitter out }
    | QOutcome.noResult =>
      { starts := [(t, h)], finalHistory := h, erroredTurn := none, sent := [] }
  | h, t, t2 :: rest =>
    match gen h t with
    | QOutcome.err =>
      { starts := [(t, h)], finalHistory := h, erroredTurn := some t, sent := [] }
    | QOutcome.result m out =>
      let r := queueLoop gen m t2 rest
      { starts := (t, h) :: r.starts, finalHistory := r.finalHistory,
        erroredTurn := r.erroredTurn, sent := md_splitter out ++ r.sent }
    | QOutcome.noResult =>
      let r := queueLoop gen h t2 rest
      { starts := (t, h) :: r.starts, finalHistory := r.finalHistory,
        erroredTurn := r.erroredTurn, sent := r.sent }

/-- Observable result of one `respond_to_message` call of the queue
variant. -/
structure QueueResult where
  /-- Every write to `thread_contents_kv` made on behalf of this session, in
  order. -/
  commits : List (List Msg)
  /-- Each processed turn paired with the history its run started from. -/
  starts : List (Nat × List Msg)
  /-- The turn whose run raised, if any. -/
  erroredTurn : Option Nat
  /-- Messages sent to the thread by the loop body. -/
  sent : List String
  /-- Whether `report.cancel()` ran. -/
  reporterStopped : Bool
deriving DecidableEq

/-- `respond_to_message` of `src/agent.py` (lines 74-134) for a first turn
`t` and the backlog contents `backlog`: the loop runs, and the single
`finally` block (lines 130-134) deletes the session, cancels the reporter
and issues the one `txn.put` of the session, writing the in-memory history
the loop ended with. -/
def queue_respond_to_message (gen : List Msg → Nat → QOutcome)
    (h0 : List Msg) (t : Nat) (backlog : List Nat) : QueueResult :=
  let r := queueLoop gen h0 t backlog
  { commits := [r.finalHistory]
    starts := r.starts
    erroredTurn := r.erroredTurn
    sent := r.sent
    reporterStopped := true }

/-- Spec-side description of the queue discipline: each turn is processed in
arrival order, and each run starts from the history produced by the run
before it. -/
def specQueueChain (gen : List Msg → Nat → QOutcome) :
    List Msg → List Nat → List (Nat × List Msg)
  | _, [] => []
  | h, t :: ts =>
    (t, h) :: specQueueChain gen
      (match gen h t with | QOutcome.result m _ => m | _ => h) ts

/-- Spec-side description of the history after the whole batch of turns. -/
def specFinalHistory (gen : List Msg → Nat → QOutcome) :
    List Msg → List Nat → List Msg
  | h, [] => h
  | h, t :: ts =>
    specFinalHistory gen
      (match gen h t with | QOutcome.result m _ => m | _ => h) ts

/-! ## Shared routing lemmas -/

theorem route_ignored (mid freshTid : Nat) (inCache : Bool) (ev : MessageEvent)
    (kv : Nat → Option Nat)
    (h : ev.is_human = false ∨ ev.content = none ∨
         (∃ c, ev.content = some c ∧ stripMention mid c = "")) :
    route (some mid) freshTid inCache ev kv = (kv, [], RouteOut.ignored) := by
  by_cases hh : ev.is_human = false
  · simp [route, hh]
  · rcases h with h | h | ⟨c, hc, hs⟩
    · exact absurd h hh
    · simp [route, hh, h]
    · simp [route, hh, hc, hs]

theorem route_rejected (mid freshTid : Nat) (inCache : Bool) (ev : MessageEvent)
    (kv : Nat → Option Nat) (c : String)
    (hhum : ev.is_human = true) (hc : ev.content = some c)
    (hne : ¬ stripMention mid c = "") (hch : ¬ ev.channel_id = magicChannel)
    (hrej : kv ev.channel_id = none ∨
            ∃ o, kv ev.channel_id = some o ∧ ¬ o = ev.author_id) :
    route (some mid) freshTid inCache ev kv =
      (kv, [Action.readOwner ev.channel_id, Action.reaction], RouteOut.rejected) := by
  rcases hrej with h | ⟨o, ho, hno⟩
  · simp [route, hhum, hc, hne, hch, h]
  · simp [route, hhum, hc, hne, hch, ho, hno]

theorem route_proceed (mid freshTid : Nat) (ev : MessageEvent)
    (kv : Nat → Option Nat) (c : String)
    (hhum : ev.is_human = true) (hc : ev.content = some c)
    (hne : ¬ stripMention mid c = "") (hch : ¬ ev.channel_id = magicChannel)
    (hown : kv ev.channel_id = some ev.author_id) :
    route (some mid) freshTid true ev kv =
      (kv, [Action.readOwner ev.channel_id], RouteOut.proceed ev.channel_id) := by
  simp [route, hhum, hc, hne, hch, hown]

/-! ## Claim theorems -/

/-- Claim C4: an inbound turn for a conversation with no ownership record, or
from an author other than the recorded owner, is rejected by both handler
variants before any session state is touched: the controller state (including
the stored history and the session table) is returned unchanged, the only
store access is the ownership lookup, no generation is started (so no history
is read), and the caller gets the reaction marker. -/
theorem C4_theorem (mid freshTid : Nat) (inCache : Bool) (ev : MessageEvent)
    (s : HState) (p : PState) (c : String)
    (hhum : ev.is_human = true) (hc : ev.content = some c)
    (hne : ¬ stripMention mid c = "") (hch : ¬ ev.channel_id = magicChannel)
    (hs : s.user_kv ev.channel_id = none ∨
          ∃ o, s.user_kv ev.channel_id = some o ∧ ¬ o = ev.author_id)
    (hp : p.user_kv ev.channel_id = none ∨
          ∃ o, p.user_kv ev.channel_id = some o ∧ ¬ o = ev.author_id) :
    message_create_handler (some mid) freshTid inCache ev s =
      (s, [Action.readOwner ev.channel_id, Action.reaction], Decision.rejected) ∧
    ping (some mid) freshTid inCache ev p =
      (p, [Action.readOwner ev.channel_id, Action.reaction], Decision.rejected) := by
  constructor
  · simp [message_create_handler,
      route_rejected mid freshTid inCache ev s.user_kv c hhum hc hne hch hs]
  · simp [ping,
      route_rejected mid freshTid inCache ev p.user_kv c hhum hc hne hch hp]

/-- Event used by the concrete handler witnesses: a human message in an
unknown channel. -/
def evUnknown : MessageEvent := ⟨true, 2, 5, some "hi"⟩

/-- Empty queue-variant controller state. -/
def s0 : HState := ⟨fun _ => none, fun _ => none, fun _ => none⟩

/-- Empty preempt-variant controller state. -/
def p0 : PState := ⟨fun _ => none, fun _ => none, fun _ => false⟩

theorem C4_witness :
    s0.user_kv evUnknown.channel_id = none ∧
    p0.user_kv evUnknown.channel_id = none ∧
    (message_create_handler (some 1) 100 true evUnknown s0 =
       (s0, [Action.readOwner evUnknown.channel_id, Action.reaction],
        Decision.rejected) ∧
     ping (some 1) 100 true evUnknown p0 =
       (p0, [Action.readOwner evUnknown.channel_id, Action.reaction],
        Decision.rejected)) :=
  ⟨rfl, rfl,
   C4_theorem 1 100 true evUnknown s0 p0 "hi" rfl rfl (by decide) (by decide)
     (Or.inl rfl) (Or.inl rfl)⟩

/-- Claim C9: an event that is not from a human, or has no text content, or
whose text is empty once the bot mention is removed and whitespace stripped,
makes both handler variants return with no thread created, no session
created, no store access, and no message or reaction sent: the state is
unchanged and the action trace is empty. -/
theorem C9_theorem (mid freshTid : Nat) (inCache : Bool) (ev : MessageEvent)
    (s : HState) (p : PState)
    (h : ev.is_human = false ∨ ev.content = none ∨
         (∃ c, ev.content = some c ∧ stripMention mid c = "")) :
    message_create_handler (some mid) freshTid inCache ev s =
      (s, [], Decision.ignored) ∧
    ping (some mid) freshTid inCache ev p = (p, [], Decision.ignored) := by
  constructor
  · simp [message_create_handler, route_ignored mid freshTid inCache ev s.user_kv h]
  · simp [ping, route_ignored mid freshTid inCache ev p.user_kv h]

/-- Event whose text is only the bot mention and whitespace. -/
def evMentionOnly : MessageEvent := ⟨true, 2, 5, some " <@1> "⟩

theorem C9_witness :
    (∃ c, evMentionOnly.content = some c ∧ stripMention 1 c = "") ∧
    (message_create_handler (some 1) 100 true evMentionOnly s0 =
       (s0, [], Decision.ignored) ∧
     ping (some 1) 100 true evMentionOnly p0 = (p0, [], Decision.ignored)) :=
  ⟨⟨" <@1> ", rfl, by decide⟩,
   C9_theorem 1 100 true evMentionOnly s0 p0
     (Or.inr (Or.inr ⟨" <@1> ", rfl, by decide⟩))⟩

/-- Claim C7: with all fetches of allow-listed attachments succeeding, the
classifier partitions the attachment list completely — every allow-listed
attachment contributes its fetched bytes and media type to the inline
contents, every other attachment contributes its original filename to the
ignored set, and the ignored set is non-empty whenever a disallowed
attachment is present. -/
theorem C7_theorem (content : Option String) (atts : List Attachment)
    (hf : ∀ a ∈ atts, mediaOk a = true → a.fetch ≠ none) :
    ∃ msgs ign, _parse_message content atts = Except.ok (msgs, ign) ∧
      (∀ a ∈ atts, ∀ m d, a.media_type = some m → m ∈ allowedMediaTypes →
        a.fetch = some d → UserContent.binary d m ∈ msgs) ∧
      (∀ a ∈ atts, mediaOk a = false → a.filename ∈ ign) ∧
      ((∃ a ∈ atts, mediaOk a = false) → ign ≠ []) := by
  refine ⟨[UserContent.text (textContent content)] ++ inlineParts atts,
    ignoredNames atts, ?_, ?_, ?_, ignoredNames_ne_nil⟩
  · simpa using parseLoop_ok atts hf _ []
  · intro a ha m d hm hmem hd
    exact List.mem_append.2 (Or.inr (mem_inlineParts ha hm hmem hd))
  · intro a ha hno
    exact mem_ignoredNames ha hno

/-- A mixed attachment list with successful fetches for the allow-listed
entries. -/
def attsMixed : List Attachment :=
  [⟨"p.png", some "image/png", some [7, 8]⟩,
   ⟨"n.txt", some "text/plain", some [1]⟩,
   ⟨"v.bin", none, none⟩]

theorem C7_witness :
    (∀ a ∈ attsMixed, mediaOk a = true → a.fetch ≠ none) ∧
    (∃ msgs ign, _parse_message (some "hi") attsMixed = Except.ok (msgs, ign) ∧
      (∀ a ∈ attsMixed, ∀ m d, a.media_type = some m → m ∈ allowedMediaTypes →
        a.fetch = some d → UserContent.binary d m ∈ msgs) ∧
      (∀ a ∈ attsMixed, mediaOk a = false → a.filename ∈ ign) ∧
      ((∃ a ∈ attsMixed, mediaOk a = false) → ign ≠ [])) :=
  ⟨by decide, C7_theorem (some "hi") attsMixed (by decide)⟩

/-- Claim C6 counterexample: a single allow-listed attachment whose byte
fetch fails makes the whole message parse raise — the parse yields an error
instead of a result with the attachment in the ignored set, so the failure is
fatal to the turn, contradicting the claim. -/
theorem C6_counterexample :
    _parse_message (some "look") [⟨"a.png", some "image/png", none⟩] =
      Except.error "a.png" := rfl

/-- Claim C6 as amended: a failure while fetching the bytes of an attachment
whose media type is in the allow-set raises out of message parsing and is
fatal to the turn — the parse produces no content at all, and the attachment
is not demoted to the ignored set (only disallowed media types are). -/
theorem C6_theorem (content : Option String) (atts : List Attachment)
    (h : ∃ a ∈ atts, mediaOk a = true ∧ a.fetch = none) :
    ∃ f, _parse_message content atts = Except.error f :=
  parseLoop_err atts h _ _

/-- An attachment list whose second, allow-listed entry fails to fetch. -/
def attsFetchFail : List Attachment :=
  [⟨"b.txt", some "text/plain", some [1]⟩,
   ⟨"a.png", some "image/png", none⟩]

theorem C6_witness :
    (∃ a ∈ attsFetchFail, mediaOk a = true ∧ a.fetch = none) ∧
    (∃ f, _parse_message (some "hi") attsFetchFail = Except.error f) :=
  ⟨by decide, C6_theorem (some "hi") attsFetchFail (by decide)⟩

/-- Claim C8 counterexample: writing an ownership record for a conversation
id that already has one does not fail loudly — the put reports success and
silently replaces the stored owner. -/
theorem C8_counterexample :
    ((recordOwner (fun _ => none) 5 1).1 5 = some 1) ∧
    ((recordOwner (recordOwner (fun _ => none) 5 1).1 5 2).2 = true) ∧
    ((recordOwner (recordOwner (fun _ => none) 5 1).1 5 2).1 5 = some 2) :=
  ⟨rfl, rfl, rfl⟩

/-- Claim C8 as amended: the ownership write is a plain overwriting `put`:
for any prior table contents a write for the same conversation id succeeds
(returns `True`) and replaces the stored owner; the write-once discipline is
not enforced by the operation and holds in practice only because newly
created thread ids are fresh keys. -/
theorem C8_theorem (kv : Nat → Option Nat) (tid u1 u2 : Nat) :
    ((recordOwner kv tid u1).1 tid = some u1) ∧
    ((recordOwner (recordOwner kv tid u1).1 tid u2).2 = true) ∧
    ((recordOwner (recordOwner kv tid u1).1 tid u2).1 tid = some u2) := by
  refine ⟨?_, rfl, ?_⟩ <;> simp [recordOwner]

/-- The forwarding of agent output to the conversation
(`src/main.py` lines 133-134, `src/agent.py` lines 122-123): each chunk
produced by `md_splitter` is sent to the thread in order. -/
def sendOutputChunks (tid : Nat) (output : String) : List Action :=
  (md_splitter output).map (fun c => Action.send tid c)

/-- Claim C10: every piece of agent output forwarded to the conversation is
sent as a sequence of chunks of at most 2000 characters, and the chunks
concatenate back to the original text in order with zero overlap. -/
theorem C10_theorem (tid : Nat) (output : String) :
    (∀ a ∈ sendOutputChunks tid output,
      ∃ c, a = Action.send tid c ∧ c.length ≤ 2000) ∧
    ((md_splitter output).map String.data).flatten = output.data := by
  constructor
  · intro a ha
    simp only [sendOutputChunks, List.mem_map] at ha
    obtain ⟨c, hc, rfl⟩ := ha
    exact ⟨c, rfl, md_splitter_length output c hc⟩
  · exact md_splitter_join output

/-- Claim C5 (code bug evaluation): on the generic-exception exit path of the
preempt variant the reporter is never cancelled (`reporterCancelArg = none`),
while the success and cancellation paths do cancel it with a final render
argument. -/
theorem C5_theorem :
    (main_respond_to_message (RunOutcome.failed [0, 1])).reporterCancelArg =
      none ∧
    (main_respond_to_message (RunOutcome.cancelled [0, 1])).reporterCancelArg =
      some "[interrupted]" ∧
    (main_respond_to_message
        (RunOutcome.success [0, 1, 2] "fine" "0.1")).reporterCancelArg =
      some "info: cost $0.1" :=
  ⟨rfl, rfl, rfl⟩

/-! ## Queue-loop lemmas -/

theorem queueLoop_chain (gen : List Msg → Nat → QOutcome)
    (hgen : ∀ h u, ∃ m out, gen h u = QOutcome.result m out) :
    ∀ (backlog : List Nat) (h : List Msg) (t : Nat),
      (queueLoop gen h t backlog).starts = specQueueChain gen h (t :: backlog) ∧
      (queueLoop gen h t backlog).finalHistory =
        specFinalHistory gen h (t :: backlog) ∧
      (queueLoop gen h t backlog).erroredTurn = none := by
  intro backlog
  induction backlog with
  | nil =>
    intro h t
    obtain ⟨m, out, hg⟩ := hgen h t
    simp [queueLoop, hg, specQueueChain, specFinalHistory]
  | cons t2 rest ih =>
    intro h t
    obtain ⟨m, out, hg⟩ := hgen h t
    obtain ⟨h1, h2, h3⟩ := ih m t2
    simp [queueLoop, hg, specQueueChain, specFinalHistory, h1, h2, h3]

theorem specQueueChain_fst (gen : List Msg → Nat → QOutcome) :
    ∀ (ts : List Nat) (h : List Msg),
      (specQueueChain gen h ts).map Prod.fst = ts := by
  intro ts
  induction ts with
  | nil => intro h; rfl
  | cons t rest ih => intro h; simp [specQueueChain, ih]

/-- Claim C1 counterexample: conversation 9 has committed history `[0, 1]`;
the active generation is preempt-cancelled while `capture_run_messages` holds
`[0, 1, 2]` (the history plus the request of the cancelled turn).  The
`finally` block of the cancelled task commits that capture, so the store
afterwards holds `[0, 1, 2]` — not the pre-cancellation commit `[0, 1]` — and
the replacement generation starts from `[0, 1, 2]`. -/
theorem C1_counterexample :
    (preemptStep (fun k => if k = 9 then some [0, 1] else none) 9
        (RunOutcome.cancelled [0, 1, 2])).1 9 = some [0, 1, 2] ∧
    (preemptStep (fun k => if k = 9 then some [0, 1] else none) 9
        (RunOutcome.cancelled [0, 1, 2])).2 = [0, 1, 2] ∧
    ¬ (preemptStep (fun k => if k = 9 then some [0, 1] else none) 9
        (RunOutcome.cancelled [0, 1, 2])).2 = [0, 1] := by
  refine ⟨rfl, rfl, by decide⟩

/-- Claim C1 as amended: when a preempt cancellation settles a generation,
the `finally` block still commits the messages `capture_run_messages` holds
(the prior history extended by at least the cancelled turn request), and the
replacement generation starts from exactly that committed capture — which
therefore differs from the history as of the last commit before the cancelled
generation. -/
theorem C1_theorem (store : Nat → Option (List Msg)) (tid : Nat)
    (h0 : List Msg) (req : Msg) :
    (preemptStep store tid (RunOutcome.cancelled (h0 ++ [req]))).1 tid =
      some (h0 ++ [req]) ∧
    (preemptStep store tid (RunOutcome.cancelled (h0 ++ [req]))).2 =
      h0 ++ [req] ∧
    ¬ h0 ++ [req] = h0 := by
  refine ⟨by simp [preemptStep, main_respond_to_message],
    by simp [preemptStep, main_respond_to_message], ?_⟩
  intro h
  have hlen := congrArg List.length h
  simp at hlen

/-- Claim C2 counterexample: with an agent run that extends the history by
the turn itself, processing turn 1 with turn 2 queued commits exactly once —
the only store write is the final `[1, 2]`, the intermediate history `[1]`
with which turn 1 settled is never committed, even though turn 2 then starts
from it. -/
theorem C2_counterexample :
    (queue_respond_to_message (fun h t => QOutcome.result (h ++ [t]) "fine")
        [] 1 [2]).commits = [[1, 2]] ∧
    ¬ [1] ∈ (queue_respond_to_message
        (fun h t => QOutcome.result (h ++ [t]) "fine") [] 1 [2]).commits ∧
    (queueLoop (fun h t => QOutcome.result (h ++ [t]) "fine") [] 1 [2]).starts
      = [(1, []), (2, [1])] := by decide

/-- Claim C2 as amended: while a session is active, a new turn for the same
conversation is appended to the backlog (the caller is told it was queued,
with no other state change); the turns are then processed strictly in FIFO
order, each generation starting with exactly the in-memory history produced
by the previous run — but the history store is written only once, in the
`finally` block after the backlog drains, not after each settle. -/
theorem C2_theorem (gen : List Msg → Nat → QOutcome) (h0 : List Msg) (t : Nat)
    (backlog : List Nat) (mid freshTid : Nat) (ev : MessageEvent) (s : HState)
    (c : String) (B : List MessageEvent)
    (hgen : ∀ h u, ∃ m out, gen h u = QOutcome.result m out)
    (hhum : ev.is_human = true) (hc : ev.content = some c)
    (hne : ¬ stripMention mid c = "") (hch : ¬ ev.channel_id = magicChannel)
    (hown : s.user_kv ev.channel_id = some ev.author_id)
    (hsess : s.sessions ev.channel_id = some B) :
    message_create_handler (some mid) freshTid true ev s =
      ({ s with sessions := fun k =>
           if k = ev.channel_id then some (B ++ [ev]) else s.sessions k },
       [Action.readOwner ev.channel_id], Decision.queued) ∧
    (queueLoop gen h0 t backlog).starts = specQueueChain gen h0 (t :: backlog) ∧
    (queueLoop gen h0 t backlog).starts.map Prod.fst = t :: backlog ∧
    (queue_respond_to_message gen h0 t backlog).commits =
      [specFinalHistory gen h0 (t :: backlog)] := by
  refine ⟨?_, (queueLoop_chain gen hgen backlog h0 t).1, ?_, ?_⟩
  · simp [message_create_handler,
      route_proceed mid freshTid ev s.user_kv c hhum hc hne hch hown, hsess]
  · rw [(queueLoop_chain gen hgen backlog h0 t).1, specQueueChain_fst]
  · simp [queue_respond_to_message, (queueLoop_chain gen hgen backlog h0 t).2.1]

/-- An agent runtime that always settles with the history extended by the
turn itself. -/
def queueGenEx : List Msg → Nat → QOutcome :=
  fun h t => QOutcome.result (h ++ [t]) "fine"

/-- Event used by the C2 witness: a human message for the known thread 5. -/
def evQueued : MessageEvent := ⟨true, 2, 5, some "hi"⟩

/-- Queue-variant state with an active, empty-backlog session for thread 5
owned by user 2. -/
def sActive : HState :=
  ⟨fun k => if k = 5 then some 2 else none,
   fun _ => none,
   fun k => if k = 5 then some [] else none⟩

theorem C2_witness :
    (∀ h u, ∃ m out, queueGenEx h u = QOutcome.result m out) ∧
    (message_create_handler (some 1) 100 true evQueued sActive =
       ({ sActive with sessions := fun k =>
            if k = evQueued.channel_id then some [evQueued]
            else sActive.sessions k },
        [Action.readOwner evQueued.channel_id], Decision.queued) ∧
     (queueLoop queueGenEx [] 1 [2]).starts =
       specQueueChain queueGenEx [] [1, 2] ∧
     (queueLoop queueGenEx [] 1 [2]).starts.map Prod.fst = [1, 2] ∧
     (queue_respond_to_message queueGenEx [] 1 [2]).commits =
       [specFinalHistory queueGenEx [] [1, 2]]) :=
  ⟨fun h u => ⟨h ++ [u], "fine", rfl⟩,
   C2_theorem queueGenEx [] 1 [2] 1 100 evQueued sActive "hi" []
     (fun h u => ⟨h ++ [u], "fine", rfl⟩) rfl rfl (by decide) (by decide)
     rfl rfl⟩

/-- An agent runtime whose run raises an unrecoverable error. -/
def genErrEx : List Msg → Nat → QOutcome := fun _ _ => QOutcome.err

/-- Claim C3 counterexample: conversation history is `[7]`; the run for the
new turn raises before any result event.  The queue variant then commits
exactly the prior history `[7]` — the failing turn is silently dropped from
the committed log — and sends nothing to the conversation; the preempt
variant only prints the error to the process log. -/
theorem C3_counterexample :
    (queue_respond_to_message genErrEx [7] 1 []).commits = [[7]] ∧
    (queue_respond_to_message genErrEx [7] 1 []).sent = [] ∧
    (queue_respond_to_message genErrEx [7] 1 []).erroredTurn = some 1 ∧
    (main_respond_to_message (RunOutcome.failed [7, 8])).sent = [] ∧
    (main_respond_to_message (RunOutcome.failed [7, 8])).printedError = true :=
  ⟨rfl, rfl, rfl, rfl, rfl⟩

/-- Claim C3 as amended: on an unrecoverable runtime error the queue variant
aborts its loop and its `finally` block commits the in-memory history as of
the last successful result — the failing turn contributes nothing to the
committed log — and no message (error or otherwise) is sent to the
conversation by this code path; the preempt variant commits the captured
messages but reports the error only on the process log. -/
theorem C3_theorem (gen : List Msg → Nat → QOutcome) (h0 : List Msg) (t : Nat)
    (backlog : List Nat) (cap : List Msg)
    (herr : gen h0 t = QOutcome.err) :
    (queue_respond_to_message gen h0 t backlog).commits = [h0] ∧
    (queue_respond_to_message gen h0 t backlog).sent = [] ∧
    (queue_respond_to_message gen h0 t backlog).erroredTurn = some t ∧
    (main_respond_to_message (RunOutcome.failed cap)).committed = cap ∧
    (main_respond_to_message (RunOutcome.failed cap)).sent = [] ∧
    (main_respond_to_message (RunOutcome.failed cap)).printedError = true := by
  have hq : queueLoop gen h0 t backlog =
      { starts := [(t, h0)], finalHistory := h0, erroredTurn := some t,
        sent := [] } := by
    cases backlog <;> simp [queueLoop, herr]
  refine ⟨?_, ?_, ?_, rfl, rfl, rfl⟩ <;>
    simp [queue_respond_to_message, hq]

theorem C3_witness :
    genErrEx [9] 3 = QOutcome.err ∧
    ((queue_respond_to_message genErrEx [9] 3 [4]).commits = [[9]] ∧
     (queue_respond_to_message genErrEx [9] 3 [4]).sent = [] ∧
     (queue_respond_to_message genErrEx [9] 3 [4]).erroredTurn = some 3 ∧
     (main_respond_to_message (RunOutcome.failed [9, 10])).committed = [9, 10] ∧
     (main_respond_to_message (RunOutcome.failed [9, 10])).sent = [] ∧
     (main_respond_to_message (RunOutcome.failed [9, 10])).printedError = true) :=
  ⟨rfl, C3_theorem genErrEx [9] 3 [4] [9, 10] rfl⟩

end DiscordAgent

